import Mathlib

/-
  Verification of the omc3 optics-analysis repository against its
  natural-language specification.

  Shallow embedding conventions:
  * floating-point numbers are modelled by ℚ (and by ℝ where a square root
    is part of the observable result);
  * labeled tables (TFS tables) are modelled by association lists or by
    structures holding rows, columns and headers explicitly;
  * external numeric primitives (scipy minimizers, numpy pseudo-inverse)
    are oracles passed as function arguments, exactly as the spec treats
    them ("external mathematical library calls", spec section 1/section 6);
  * Python exceptions are modelled by Except / Option result types whose
    error constructors distinguish the exception classes that matter
    (ValueError, TypeError, NotImplementedError).
-/

namespace Omc3

/-! ### Correction handler — src/omc3/correction/handler.py -/

/-- A Delta Vector: the single-column table `DELTA` indexed by corrector
name (handler.py line 46). Represented as an association list, which keeps
the row order of the pandas index. -/
abbrev DeltaVec := List (String × ℚ)

/-- The row labels (corrector names) of a Delta Vector. -/
def deltaNames (d : DeltaVec) : List String := d.map Prod.fst

/-- The loop-carried state of `correct` (handler.py lines 46-86): the
accumulated Delta Vector, the column labels of the combined response
matrix, and the correction-variable list. The numeric content of the
response matrix is irrelevant to the pruning claims, only its column
index is tracked. -/
structure CorrState where
  delta : DeltaVec
  respCols : List String
  varsList : List String
deriving Repr

/-- Embeds `_filter_by_strength` (handler.py lines 264-267):
`delta = delta.loc[delta[DELTA].abs() > min_strength]` keeps exactly the
entries whose accumulated |DELTA| strictly exceeds the threshold; the
response matrix is restricted to the surviving columns
(`resp_matrix.loc[:, delta.index]`) and the variable list is replaced by
the surviving index (`delta.index.values`). -/
def filter_by_strength (delta : DeltaVec) (minStrength : ℚ) :
    DeltaVec × List String × List String :=
  let d := delta.filter fun p => minStrength < |p.2|
  (d, deltaNames d, deltaNames d)

/-- One pass of the iteration body of `correct` (handler.py lines 48-85),
steps b-d: `delta += _calculate_delta(...)` followed by
`_filter_by_strength`. The solver increment of the iteration
(`_calculate_delta`, whose numeric core `pinv`/`omp` is an external
library call) is modelled as a function from corrector name to increment;
the solver output is indexed by the current `vars_list`, which equals the
index of `delta`, so the pandas `+=` aligns elementwise. When
`update_response` is set, the rebuilt response matrix is again restricted
to the current `vars_list` (`_join_responses`, line 74), so the invariant
respCols = varsList is maintained in both branches. -/
def correctionStep (minStrength : ℚ) (inc : String → ℚ) (st : CorrState) : CorrState :=
  let accumulated : DeltaVec := st.delta.map fun p => (p.1, p.2 + inc p.1)
  let fbs := filter_by_strength accumulated minStrength
  ⟨fbs.1, fbs.2.1, fbs.2.2⟩

/-- The state before the first iteration (handler.py lines 45-46):
`delta = tfs.TfsDataFrame(0, index=vars_list, columns=[DELTA])`, response
matrix columns joined on `vars_list`. -/
def initState (vars0 : List String) : CorrState :=
  ⟨vars0.map fun v => (v, 0), vars0, vars0⟩

/-- The iteration loop of `correct` after `n` iterations, with the
per-iteration solver outputs given by the oracle `incs`. -/
def runCorrection (minStrength : ℚ) (incs : ℕ → String → ℚ) (vars0 : List String) :
    ℕ → CorrState
  | 0 => initState vars0
  | n + 1 => correctionStep minStrength (incs n) (runCorrection minStrength incs vars0 n)

/-! Measurement loading — `_get_measurment_data` (handler.py lines 131-154). -/

/-- A row of a measurement table: row label, VALUE and ERROR columns. -/
structure MeasRow where
  label : String
  value : ℚ
  error : ℚ
deriving DecidableEq, Repr

/-- A TFS file on disk as the handler sees it: its data rows, and the two
tune headers `Q1`/`Q2` (accessed by `read_meas(...)['Q1']`, which falls
back to the header map on a TfsDataFrame; only the horizontal phase file's
tune headers are ever read this way). -/
structure TfsFile where
  rows : List MeasRow
  q1 : ℚ
  q2 : ℚ

/-- Modelled from the spec: file-name stems of the measurement files
(the `optics_measurements.constants` module is not under src/; the stems'
exact values are irrelevant to every claim). -/
def PHASE_NAME : String := "phase_"

/-- Modelled from the spec: dispersion file-name stem (constants module
not under src/). -/
def DISPERSION_NAME : String := "normalised_dispersion_"

/-- Modelled from the spec: normalized-dispersion file-name stem
(constants module not under src/). -/
def NORM_DISP_NAME : String := "norm_disp_"

/-- Modelled from the spec: TFS file extension (constants module not
under src/). -/
def EXT : String := ".tfs"

/-- The lower-cased last character of a key, `key[-1].lower()`. -/
def lastLower (key : String) : String := String.singleton key.back.toLower

/-- Auxiliary for `str_starts_with`: whether the first list is an
initial segment of the second. -/
def strStartAux : List Char → List Char → Bool
  | [], _ => true
  | _ :: _, [] => false
  | c :: cs, d :: ds => c == d && strStartAux cs ds

/-- Python `key.startswith(pre)` on the underlying character lists. -/
def str_starts_with (s p : String) : Bool := strStartAux p.data s.data

/-- Fractional part as computed by `np.remainder(x, 1)`: `x - ⌊x⌋`. -/
def np_remainder1 (q : ℚ) : ℚ := q - ⌊q⌋

/-- The per-key dispatch of `_get_measurment_data` (handler.py lines
135-153), for one key of nonzero weight: which table (if any) is put in
the measurement dictionary. `measDir` is the measurement directory as a
file-reading oracle (`read_meas` / `tfs.read`, external I/O). The `Q` key
builds a fresh two-row table from the fractional parts of the horizontal
phase file's tune headers, with fixed 0.001 errors. The coupling keys are
an explicit no-op (`pass`). -/
def measKeyDispatch (measDir : String → TfsFile) (betaFileName : String)
    (key : String) : Option (List MeasRow) :=
  if str_starts_with key "MU" then
    some (measDir (PHASE_NAME ++ lastLower key ++ EXT)).rows
  else if str_starts_with key "D" then
    some (measDir (DISPERSION_NAME ++ lastLower key ++ EXT)).rows
  else if key = "NDX" then
    some (measDir (NORM_DISP_NAME ++ lastLower key ++ EXT)).rows
  else if key = "F1001R" ∨ key = "F1001I" ∨ key = "F1010R" ∨ key = "F1010I" then
    none
  else if key = "Q" then
    some [⟨"Q1", np_remainder1 (measDir (PHASE_NAME ++ "x" ++ EXT)).q1, 1/1000⟩,
          ⟨"Q2", np_remainder1 (measDir (PHASE_NAME ++ "x" ++ EXT)).q2, 1/1000⟩]
  else if str_starts_with key "BET" then
    some (measDir (betaFileName ++ lastLower key ++ EXT)).rows
  else
    none

/-- Lookup in a dictionary represented as an association list (the Python
dict `measurement[key]`). -/
def dictLookup {α : Type} (key : String) : List (String × α) → Option α
  | [] => none
  | (k, v) :: rest => if k = key then some v else dictLookup key rest

/-- Embeds `_get_measurment_data` (handler.py lines 131-154): keys of zero
weight are dropped (`filtered_keys = [k for k in keys if w_dict[k] != 0]`),
then the measurement dictionary is filled key by key following the
dispatch above. Returns `(filtered_keys, measurement)`. -/
def get_measurment_data (keys : List String) (measDir : String → TfsFile)
    (betaFileName : String) (w : String → ℚ) :
    List String × List (String × List MeasRow) :=
  let filteredKeys := keys.filter fun k => w k ≠ 0
  (filteredKeys,
   filteredKeys.filterMap fun key =>
     (measKeyDispatch measDir betaFileName key).map fun t => (key, t))

/-! Knob file — `write_knob` (handler.py lines 231-236). -/

/-- A filesystem path, as its list of components; `os.path.dirname` drops
the final component. -/
def dirname (p : List String) : List String := p.dropLast

/-- The written knob table: negated DELTA column plus the PATH and DATE
headers. -/
structure KnobFile where
  deltaCol : DeltaVec
  pathHeader : List String
  dateHeader : String
deriving Repr

/-- Embeds `write_knob` (handler.py lines 231-236):
`delta_out = -delta.loc[:, [DELTA]]`, header `PATH` set to
`os.path.dirname(knob_path)`, header `DATE` set to the ctime rendering of
the current wall-clock time (`datetime` is an external library; `ctime`
is passed as a rendering oracle and `now` is the creation instant). -/
def write_knob (knobPath : List String) (now : ℕ) (ctime : ℕ → String)
    (delta : DeltaVec) : KnobFile :=
  ⟨delta.map fun p => (p.1, -p.2), dirname knobPath, ctime now⟩

/-- Modelled from the spec: the knob path configured by the caller (the
entry point reading the configuration record is not under src/) places
the knob file inside the configured output directory. -/
def spec_knob_path (outputDir : List String) (fileName : String) : List String :=
  outputDir ++ [fileName]

/-! ### BBQ moving average — src/omc3/tune_analysis/bbq_tools.py -/

/-- The exception classes raised by `get_moving_average`:
`NotImplementedError` for the mismatched fine-cleaning options (bbq_tools.py
lines 44-46) and `ValueError` (the spec's InvalidInput class) from
`_is_almost_empty_mask` (lines 93-96). -/
inductive BbqError where
  | notImplemented
  | invalidInput
deriving DecidableEq, Repr

/-- Python truthiness of an optional window length: `bool(None)` and
`bool(0)` are false. -/
def truthyNat (o : Option ℕ) : Bool := o.elim false fun n => n != 0

/-- Python truthiness of an optional numeric cut: `bool(None)` and
`bool(0.0)` are false. -/
def truthyRat (o : Option ℚ) : Bool := o.elim false fun q => q != 0

/-- The exclusion mask of `get_moving_average` (bbq_tools.py lines 48-58):
`min_mask = data_series <= min_val` (elementwise; false where no bound is
given and false on missing values, since NaN comparisons are false),
`max_mask = data_series >= max_val`, and
`cut_mask = min_mask | max_mask | data_series.isna()`. A missing value in
the series is modelled by `none`. -/
def build_cut_mask (series : List (Option ℚ)) (minVal maxVal : Option ℚ) :
    List Bool :=
  series.map fun x =>
    (match minVal, x with
     | some mv, some v => decide (v ≤ mv)
     | _, _ => false) ||
    (match maxVal, x with
     | some mv, some v => decide (mv ≤ v)
     | _, _ => false) ||
    x.isNone

/-- Embeds `_is_almost_empty_mask` (bbq_tools.py lines 93-96): the guard
fires (raises ValueError) when `sum(mask) <= av_length`, where `mask` is
the mask of surviving points. -/
def is_almost_empty_mask (mask : List Bool) (avLength : ℕ) : Bool :=
  mask.count true ≤ avLength

/-- Embeds the input-checking phase of `get_moving_average` (bbq_tools.py
lines 44-59): the fine-cleaning option consistency check, the exclusion
mask, and the minimum-surviving-points guard `_is_almost_empty_mask(~cut_mask,
length)`. Returns the exclusion mask on success; the subsequent
interpolation and rolling-average numerics (lines 60-69) do not raise at
this guard and are not needed by the claims. -/
def get_moving_average_checks (series : List (Option ℚ)) (length : ℕ)
    (minVal maxVal : Option ℚ) (fineLength : Option ℕ) (fineCut : Option ℚ) :
    Except BbqError (List Bool) :=
  if truthyNat fineLength != truthyRat fineCut then
    .error .notImplemented
  else
    let cutMask := build_cut_mask series minVal maxVal
    if is_almost_empty_mask (cutMask.map not) length then
      .error .invalidInput
    else
      .ok cutMask

/-! ### K-modulation analysis — src/omc3/kmod/kmod_analysis.py -/

/-- Embeds `return_sign_for_err` (kmod_analysis.py lines 12-18): a
(2n+1) × n sign matrix; row 0 is zero, `sign[1::2] = eye(n)` puts +1 rows
at odd indices and `sign[2::2] = -eye(n)` puts −1 rows at even indices
≥ 2. -/
def return_sign_for_err (n : ℕ) : Fin (2 * n + 1) → Fin n → ℚ :=
  fun i j =>
    if i.val = 2 * j.val + 1 then 1
    else if i.val = 2 * j.val + 2 then -1
    else 0

/-- The row index `2k+1` (a "+" perturbation row) of the 17-row sign set. -/
def plusRow (k : Fin 8) : Fin (2 * 8 + 1) := ⟨2 * k.val + 1, by omega⟩

/-- The row index `2k+2` (a "−" perturbation row) of the 17-row sign set. -/
def minusRow (k : Fin 8) : Fin (2 * 8 + 1) := ⟨2 * k.val + 2, by omega⟩

/-- Embeds `get_beta_waist` (kmod_analysis.py lines 203-219). The
simplex search `scipy.optimize.minimize(fun, guess, method=nelder-mead)`
is an external solver; it is modelled as an oracle mapping the sign
vector of the perturbation row to the fitted pair
`(beta_at_waist, waist)`. The function returns
`(results[0,0], beta_waist_err, results[0,1], waist_err)` where both
error formulas are, verbatim from lines 216-217,
`sqrt(sum(maximum(absolute(results[1::2] - results[0]),
abs(results[1::2] - results[0])) ** 2))` — the elementwise maximum of a
quantity with itself, taken over the odd-indexed (plus) rows only; the
even-indexed (minus) rows are fitted but unused. -/
noncomputable def get_beta_waist (minimize : (Fin 8 → ℚ) → ℚ × ℚ) :
    ℚ × ℝ × ℚ × ℝ :=
  let sign := return_sign_for_err 8
  let results : Fin (2 * 8 + 1) → ℚ × ℚ := fun i => minimize (sign i)
  let betaWaistErr : ℝ :=
    Real.sqrt ((∑ k : Fin 8,
      (max |(results (plusRow k)).1 - (results 0).1|
           |(results (plusRow k)).1 - (results 0).1|) ^ 2 : ℚ))
  let waistErr : ℝ :=
    Real.sqrt ((∑ k : Fin 8,
      (max |(results (plusRow k)).2 - (results 0).2|
           |(results (plusRow k)).2 - (results 0).2|) ^ 2 : ℚ))
  ((results 0).1, betaWaistErr, (results 0).2, waistErr)

/-- A k-modulation magnet table as `return_df` and `get_beta_waist` see
it; only the POLARITY header participates in the magnet-role assignment. -/
structure MagnetDF where
  polarity : ℤ
deriving DecidableEq, Repr

/-- Embeds `return_df` (kmod_analysis.py lines 176-188): the four explicit
polarity cases return the (focusing, defocusing) pair; every other
combination falls off the end of the function, which in Python returns
`None`. -/
def return_df (m1 m2 : MagnetDF) (plane : String) :
    Option (MagnetDF × MagnetDF) :=
  if plane = "X" then
    if m1.polarity = 1 ∧ m2.polarity = -1 then some (m1, m2)
    else if m1.polarity = -1 ∧ m2.polarity = 1 then some (m2, m1)
    else none
  else if plane = "Y" then
    if m1.polarity = -1 ∧ m2.polarity = 1 then some (m1, m2)
    else if m1.polarity = 1 ∧ m2.polarity = -1 then some (m2, m1)
    else none
  else none

/-- The Python exception surfaced by the magnet-role assignment step. -/
inductive PyError where
  | typeError
  | invalidInput
deriving DecidableEq, Repr

/-- The role-assignment step of `get_beta_waist` (kmod_analysis.py line
207): `foc_magnet_df, def_magnet_df = return_df(magnet1_df, magnet2_df,
plane)`. Unpacking the `None` returned for an unrecognized polarity
combination raises `TypeError` ("cannot unpack non-iterable NoneType
object"); no `ValueError`/InvalidInput is ever raised here. -/
def get_beta_waist_roles (m1 m2 : MagnetDF) (plane : String) :
    Except PyError (MagnetDF × MagnetDF) :=
  match return_df m1 m2 plane with
  | some p => .ok p
  | none => .error .typeError

/-- A row of a k-modulation magnet table (`magnet_df`): quadrupole
strength K, measured tunes, and the per-plane cleaned flags. -/
structure KmodRow where
  k : ℚ
  tuneX : ℚ
  tuneY : ℚ
  cleanedX : Bool
  cleanedY : Bool
deriving DecidableEq, Repr

/-- The headers of a magnet table used by `calc_k` and
`return_fit_input`: the single average-K header (one key,
`kmod_constants.get_k_col()`), the per-plane average-tune headers,
POLARITY and LENGTH. -/
structure KmodHeaders where
  kAvg : ℚ
  tuneAvgX : ℚ
  tuneAvgY : ℚ
  polarity : ℚ
  magLength : ℚ
deriving DecidableEq, Repr

/-- A magnet table with its headers. -/
structure MagnetTable where
  rows : List KmodRow
  headers : KmodHeaders
deriving DecidableEq, Repr

/-- The K values of the rows whose cleaned flag is set for the given
plane: `magnet_df.where(magnet_df[cleaned] == True)[K].dropna()`. -/
def cleaned_k_values (df : MagnetTable) (plane : String) : List ℚ :=
  ((df.rows.filter fun r => if plane = "X" then r.cleanedX else r.cleanedY).map
    fun r => r.k)

/-- Elementwise `np.average` of a list (sum divided by length; the empty
case, NaN in numpy, is not reached by any claim). -/
def np_average (l : List ℚ) : ℚ := l.sum / l.length

/-- Embeds `calc_k` (kmod_analysis.py lines 132-137): the single
average-K header key is written twice in sequence — first with the
average over the X-plane cleaned rows, then with the average over the
Y-plane cleaned rows, the second write overwriting the first. -/
def calc_k (df : MagnetTable) : MagnetTable :=
  let afterX := { df with headers := { df.headers with
    kAvg := np_average (cleaned_k_values df "X") } }
  let afterY := { afterX with headers := { afterX.headers with
    kAvg := np_average (cleaned_k_values afterX "Y") } }
  afterY

/-- Embeds `return_fit_input` (kmod_analysis.py lines 139-146): row 0 is
`sign * (K - K_avg_header) * LENGTH` over the plane's cleaned rows, with
the polarity sign flipped for the Y plane; row 1 is the plane's
average-tune header value duplicated per retained row. -/
def return_fit_input (df : MagnetTable) (plane : String) : List ℚ × List ℚ :=
  let ks := cleaned_k_values df plane
  let sign := if plane = "X" then df.headers.polarity else -df.headers.polarity
  (ks.map fun k => sign * (k - df.headers.kAvg) * df.headers.magLength,
   ks.map fun _ => if plane = "X" then df.headers.tuneAvgX else df.headers.tuneAvgY)

/-! ### Beta from phase — src/omc3/optics_measurements/beta_from_phase.py -/

/-- Embeds `_covariant_weighting` (beta_from_phase.py lines 312-319).
`np.linalg.pinv` is an external numeric primitive (spec section 1); the
pseudo-inverse it returns for the covariance matrix `mat` is passed as
the argument `pinvMat`. `wb = np.sum(mat_inv, axis=1)` are the row sums,
`mat_inv_sum = np.sum(wb)`; when that sum is zero a `ValueError` is
raised (modelled by the error branch), otherwise the combined value
`wb·col / sum` and the combined error
`sqrt(wb·(mat·wb) / sum²)` are returned. -/
noncomputable def covariant_weighting {nc : ℕ}
    (pinvMat : Fin nc → Fin nc → ℚ) (mat : Fin nc → Fin nc → ℚ)
    (col : Fin nc → ℚ) : Except Unit (ℚ × ℝ) :=
  let wb : Fin nc → ℚ := fun i => ∑ j, pinvMat i j
  let matInvSum : ℚ := ∑ i, wb i
  if matInvSum = 0 then
    .error ()
  else
    .ok ((∑ i, wb i * col i) / matInvSum,
         Real.sqrt (((∑ i, wb i * ∑ j, mat i j * wb j) / matInvSum ^ 2 : ℚ)))

/-- True when the array has a nonzero entry: `np.any(mat)`. An empty
matrix (no valid pair combinations, `nc = 0`) has no nonzero entry. -/
def any_nonzero {nc : ℕ} (m : Fin nc → Fin nc → ℚ) : Prop :=
  ∃ i j, m i j ≠ 0

instance {nc : ℕ} (m : Fin nc → Fin nc → ℚ) : Decidable (any_nonzero m) := by
  unfold any_nonzero; infer_instance

/-- The outcome of the per-probed-BPM block of `n_bpm_method`
(beta_from_phase.py lines 187-201) for one BPM. -/
inductive NBpmOutcome where
  | skipped
  | fatal
  | recorded (beti : ℚ) (beterr : ℝ) (alfi : ℚ) (alferr : ℝ) (ncomb : ℕ)

/-- Embeds the covariance-weighting block of `n_bpm_method` for a probed
BPM (beta_from_phase.py lines 187-201): `nc` candidate combinations were
assembled into the covariance matrices `matVBeta`/`matVAlpha` with the
value vectors `betas`/`alphas`. If `np.any(mat_v_beta) and
np.any(mat_v_alpha)` the two `_covariant_weighting` calls run — they are
not wrapped in any try/except, so a `ValueError` raised inside
propagates out of `n_bpm_method` (the fatal outcome); otherwise the
`else: continue` branch skips the BPM, leaving its `n_comb` entry at 0. -/
noncomputable def n_bpm_probed_step {nc : ℕ}
    (pinvBeta pinvAlpha : Fin nc → Fin nc → ℚ)
    (matVBeta matVAlpha : Fin nc → Fin nc → ℚ)
    (betas alphas : Fin nc → ℚ) : NBpmOutcome :=
  if any_nonzero matVBeta ∧ any_nonzero matVAlpha then
    match covariant_weighting pinvBeta matVBeta betas with
    | .error _ => .fatal
    | .ok (beti, beterr) =>
      match covariant_weighting pinvAlpha matVAlpha alphas with
      | .error _ => .fatal
      | .ok (alfi, alferr) => .recorded beti beterr alfi alferr nc
  else
    .skipped

/-- The number-of-combinations marker a BPM's outcome leaves in the
`n_comb` array (beta_from_phase.py lines 136, 195): the number of
retained combinations when recorded, 0 when the BPM was skipped. -/
def ncombOf : NBpmOutcome → ℕ
  | .recorded _ _ _ _ nc => nc
  | _ => 0

/-- The final row filter of `n_bpm_method` (beta_from_phase.py line 208):
`beta_df = beta_df.loc[beta_df["NCOMB"] > 0]` — the result table keeps
exactly the BPMs whose outcome retained at least one combination. -/
def n_bpm_result_rows (outcomes : List (String × NBpmOutcome)) : List String :=
  (outcomes.filter fun p => decide (0 < ncombOf p.2)).map Prod.fst

/-- The row sums of a matrix, summed: the quantity `mat_inv_sum` whose
vanishing triggers the `ValueError` in `_covariant_weighting`. -/
def total_sum {nc : ℕ} (m : Fin nc → Fin nc → ℚ) : ℚ := ∑ i, ∑ j, m i j

/-- Matrix product of two square matrices, used to state the
Moore-Penrose conditions that pin down `np.linalg.pinv`'s output. -/
def mat_mul {nc : ℕ} (a b : Fin nc → Fin nc → ℚ) : Fin nc → Fin nc → ℚ :=
  fun i j => ∑ k, a i k * b k j

/-- The four Moore-Penrose conditions: `p` is the (unique) pseudo-inverse
of `a`. `np.linalg.pinv(mat, rcond)` returns exactly this matrix whenever
the cutoff removes only zero singular values, as it does for the concrete
singular matrices used below. -/
def is_moore_penrose {nc : ℕ} (a p : Fin nc → Fin nc → ℚ) : Prop :=
  mat_mul a (mat_mul p a) = a ∧
  mat_mul p (mat_mul a p) = p ∧
  (fun i j => mat_mul a p j i) = mat_mul a p ∧
  (fun i j => mat_mul p a j i) = mat_mul p a

/-! Systematic-error assignment — `_assign_uncertainties`
(beta_from_phase.py lines 322-359). -/

/-- A PATTERN cell of the error-definition file: either
`key:<element-name>` (exact row-label selection) or a regular expression
(matched by `twiss_full.index.str.contains`; the `re` engine is external,
so a compiled pattern is modelled by its match predicate). -/
inductive ErrPattern where
  | key (name : String)
  | regex (accepts : String → Bool)

/-- Whether an element name is selected by a pattern. -/
def pattern_matches : ErrPattern → String → Bool
  | .key s, name => name == s
  | .regex f, name => f name

/-- One row of the error-definition table: PATTERN, MAINFIELD, dK1, dX,
dS. -/
structure ErrDef where
  pattern : ErrPattern
  mainfield : String
  dK1 : ℚ
  dX : ℚ
  dS : ℚ

/-- One lattice element with the uncertainty columns that
`_assign_uncertainties` fills (`twiss_full.assign(UNC=False, dK1=0,
KdS=0, mKdS=0, dX=0, BPMdS=0)`). -/
structure UncElem where
  name : String
  k1l : ℚ
  unc : Bool
  dK1 : ℚ
  kdS : ℚ
  mkdS : ℚ
  dX : ℚ
  bpmdS : ℚ
deriving DecidableEq, Repr

/-- The body of the per-pattern loop of `_assign_uncertainties`
(beta_from_phase.py lines 335-351) applied to one element: on a match,
`dK1` is assigned `(errdef.dK1 * K1L)²`, `dX` is assigned `errdef.dX * 2`
(plain assignment, `loc[mask, "dX"] = ...`), and depending on MAINFIELD
either `BPMdS = dS²` or `KdS = (dS * K1L)²` is assigned; `UNC` is set. -/
def apply_errdef (ed : ErrDef) (e : UncElem) : UncElem :=
  if pattern_matches ed.pattern e.name then
    { e with
      dK1 := (ed.dK1 * e.k1l) ^ 2,
      dX := ed.dX * 2,
      bpmdS := if ed.mainfield = "BPM" then ed.dS ^ 2 else e.bpmdS,
      kdS := if ed.mainfield = "BPM" then e.kdS else (ed.dS * e.k1l) ^ 2,
      unc := true }
  else e

/-- `np.roll(l, 1)`: the circular shift placing the last entry first. -/
def np_roll_one (l : List ℚ) : List ℚ := l.rotate (l.length - 1)

/-- Embeds `_assign_uncertainties` (beta_from_phase.py lines 322-359):
initialise the uncertainty columns, run the per-pattern loop over the
error definitions in file order, derive `mKdS` as the one-position
circular shift of `KdS`, extend `UNC` by the nonzero-field-error test on
the following element (`abs(np.roll(dK1, -1)) > 1.0e-12`), and keep only
the rows flagged `UNC`. -/
def assign_uncertainties (elems : List UncElem) (errdefs : List ErrDef) :
    List UncElem :=
  let initial := elems.map fun e =>
    { e with unc := false, dK1 := 0, kdS := 0, mkdS := 0, dX := 0, bpmdS := 0 }
  let filled := errdefs.foldl (fun acc ed => acc.map (apply_errdef ed)) initial
  let mkds := np_roll_one (filled.map fun e => e.kdS)
  let dk1Next := (filled.map fun e => e.dK1).rotate 1
  let withRoll := (filled.zip (mkds.zip dk1Next)).map fun p =>
    { p.1 with
      mkdS := p.2.1,
      unc := p.1.unc || decide (1 / 1000000000000 < |p.2.2|) }
  withRoll.filter fun e => e.unc

/-! The 3-BPM method's in-place matrix access — `_tilt_slice_matrix`
(beta_from_phase.py lines 465-481) and `three_bpm_method` (lines
426-430). -/

/-- The in-place effect of `_tilt_slice_matrix` on its `matrix` argument
(beta_from_phase.py lines 478-479):
`matrix[shape[0]-slice_shift:, :slice_shift] += tune` and
`matrix[:slice_shift, shape[1]-slice_shift:] -= tune` update the
bottom-left and top-right `slice_shift × slice_shift` corners of the
caller's array. -/
def tilt_mutation {n : ℕ} (mat : Fin n → Fin n → ℚ) (shift : ℕ) (tune : ℚ) :
    Fin n → Fin n → ℚ :=
  fun i j =>
    mat i j + (if n - shift ≤ i.val ∧ j.val < shift then tune else 0)
            - (if i.val < shift ∧ n - shift ≤ j.val then tune else 0)

/-- Embeds `_tilt_slice_matrix` (beta_from_phase.py lines 465-481): the
pair of the returned tilted/sliced matrix
(`np.roll(matrix[np.arange(n), circulant(invrange)[invrange]], shift,
axis=0)[:width]`, whose entry (i, j) is `matrix[j, (i - shift + j) mod
n]` after the corner updates) and the mutated input array. -/
def tilt_slice_matrix {n : ℕ} (mat : Fin n → Fin n → ℚ)
    (shift width : ℕ) (tune : ℚ) :
    (Fin width → Fin n → ℚ) × (Fin n → Fin n → ℚ) :=
  let mutated := tilt_mutation mat shift tune
  (fun i j => mutated j ⟨(i.val + j.val + (n - shift % n)) % n,
                          Nat.mod_lt _ j.pos⟩,
   mutated)

/-- The state of the MEAS phase matrix after `three_bpm_method` returns
(beta_from_phase.py line 428): the method calls
`_tilt_slice_matrix(phase["MEAS"].values, 2, 5, tune)`, and `.values` is
a view of the table's backing array, so the corner updates land in the
caller's MEAS phase matrix (the MODEL and ERRMEAS matrices receive the
same treatment with the model tune, lines 429-430). -/
def three_bpm_meas_after {n : ℕ} (meas : Fin n → Fin n → ℚ) (tune : ℚ) :
    Fin n → Fin n → ℚ :=
  (tilt_slice_matrix meas 2 5 tune).2

/-! ### Theorems -/

/-! Helper lemmas about the correction iteration loop. -/

theorem deltaNames_map_add (d : DeltaVec) (inc : String → ℚ) :
    deltaNames (d.map fun p => (p.1, p.2 + inc p.1)) = deltaNames d := by
  simp [deltaNames, List.map_map, Function.comp]

theorem correctionStep_names_sublist (minS : ℚ) (inc : String → ℚ) (st : CorrState) :
    List.Sublist (deltaNames (correctionStep minS inc st).delta)
      (deltaNames st.delta) := by
  have h := ((st.delta.map fun p => (p.1, p.2 + inc p.1)).filter_sublist
    (p := fun p => minS < |p.2|)).map Prod.fst
  simpa [correctionStep, filter_by_strength, deltaNames_map_add] using h

theorem runCorrection_cols_eq (minS : ℚ) (incs : ℕ → String → ℚ)
    (vars0 : List String) (n : ℕ) :
    (runCorrection minS incs vars0 n).respCols
        = deltaNames (runCorrection minS incs vars0 n).delta ∧
    (runCorrection minS incs vars0 n).varsList
        = deltaNames (runCorrection minS incs vars0 n).delta := by
  cases n with
  | zero =>
    simp [runCorrection, initState, deltaNames, List.map_map, Function.comp_def]
  | succ k => exact ⟨rfl, rfl⟩

theorem runCorrection_names_nodup (minS : ℚ) (incs : ℕ → String → ℚ)
    (vars0 : List String) (hnd : vars0.Nodup) (n : ℕ) :
    (deltaNames (runCorrection minS incs vars0 n).delta).Nodup := by
  induction n with
  | zero =>
    simpa [runCorrection, initState, deltaNames, List.map_map, Function.comp_def]
      using hnd
  | succ k ih => exact (correctionStep_names_sublist _ _ _).nodup ih

theorem runCorrection_names_antitone (minS : ℚ) (incs : ℕ → String → ℚ)
    (vars0 : List String) {n m : ℕ} (hnm : n ≤ m) :
    deltaNames (runCorrection minS incs vars0 m).delta
      ⊆ deltaNames (runCorrection minS incs vars0 n).delta := by
  induction m, hnm using Nat.le_induction with
  | base => exact fun _ h => h
  | succ k _ ih =>
    exact fun x hx => ih ((correctionStep_names_sublist minS (incs k) _).subset hx)

theorem snd_eq_of_names_nodup {l : DeltaVec} (h : (deltaNames l).Nodup)
    {a : String} {b c : ℚ} (hb : (a, b) ∈ l) (hc : (a, c) ∈ l) : b = c := by
  induction l with
  | nil => cases hb
  | cons hd tl ih =>
    simp only [deltaNames, List.map_cons, List.nodup_cons] at h
    rcases List.mem_cons.1 hb with rfl | hb' <;>
      rcases List.mem_cons.1 hc with h2 | hc'
    · cases h2; rfl
    · exact absurd (List.mem_map_of_mem Prod.fst hc') (by simpa using h.1)
    · cases h2; exact absurd (List.mem_map_of_mem Prod.fst hb') (by simpa using h.1)
    · exact ih (by simpa [deltaNames] using h.2) hb' hc'

/-- C1: once a corrector is pruned in the global correction loop because
its accumulated |DELTA| does not exceed the minimum-corrector-strength
threshold, it is removed from the Delta Vector, the variable list and the
combined response-matrix columns, and it never reappears in any of them
at any later iteration of the run, whatever increments the solver would
compute later. -/
theorem correction_prune_permanent (minStrength : ℚ) (incs : ℕ → String → ℚ)
    (vars0 : List String) (hnd : vars0.Nodup) (name : String) (v : ℚ) (n m : ℕ)
    (hmem : (name, v) ∈ (runCorrection minStrength incs vars0 n).delta)
    (hsmall : |v + incs n name| ≤ minStrength) (hnm : n < m) :
    name ∉ deltaNames (runCorrection minStrength incs vars0 m).delta ∧
    name ∉ (runCorrection minStrength incs vars0 m).respCols ∧
    name ∉ (runCorrection minStrength incs vars0 m).varsList := by
  have key : name ∉ deltaNames (runCorrection minStrength incs vars0 (n + 1)).delta := by
    intro hmem'
    rw [runCorrection] at hmem'
    simp only [correctionStep, filter_by_strength, deltaNames, List.mem_map] at hmem'
    obtain ⟨⟨a, w⟩, hw, ha⟩ := hmem'
    cases ha
    have hw' := List.mem_filter.1 hw
    obtain ⟨⟨b, c⟩, hbc, heq⟩ := List.mem_map.1 hw'.1
    have hb : b = a := congrArg Prod.fst heq
    have hw2 : c + incs n b = w := congrArg Prod.snd heq
    subst hb
    have hcv : c = v :=
      snd_eq_of_names_nodup
        (runCorrection_names_nodup minStrength incs vars0 hnd n) hbc hmem
    subst hcv
    rw [← hw2] at hw'
    exact absurd (of_decide_eq_true hw'.2) (not_lt.2 hsmall)
  have habs : name ∉ deltaNames (runCorrection minStrength incs vars0 m).delta :=
    fun h => key (runCorrection_names_antitone minStrength incs vars0 hnm h)
  refine ⟨habs, ?_, ?_⟩
  · rw [(runCorrection_cols_eq minStrength incs vars0 m).1]; exact habs
  · rw [(runCorrection_cols_eq minStrength incs vars0 m).2]; exact habs

/-- Witness for C1 at a concrete run: corrector A is pruned at iteration
0 (increment 0, threshold 1) and stays absent at iteration 2 although the
iteration-1 increment for A would be 100. -/
theorem correction_prune_permanent_witness :
    "A" ∉ deltaNames (runCorrection 1
        (fun k s => if k = 0 then (if s = "A" then 0 else 2) else 100)
        ["A", "B"] 2).delta ∧
    "A" ∉ (runCorrection 1
        (fun k s => if k = 0 then (if s = "A" then 0 else 2) else 100)
        ["A", "B"] 2).respCols ∧
    "A" ∉ (runCorrection 1
        (fun k s => if k = 0 then (if s = "A" then 0 else 2) else 100)
        ["A", "B"] 2).varsList :=
  correction_prune_permanent 1
    (fun k s => if k = 0 then (if s = "A" then 0 else 2) else 100)
    ["A", "B"] (by decide) "A" 0 0 2 (by decide) (by norm_num) (by norm_num)

/-! Helper lemmas about the measurement dictionary. -/

theorem fst_mem_of_mem_measDict {α : Type} {l : List String}
    {g : String → Option α} {p : String × α}
    (hp : p ∈ l.filterMap fun key => (g key).map fun t => (key, t)) :
    p.1 ∈ l := by
  obtain ⟨a, ha, hg⟩ := List.mem_filterMap.1 hp
  obtain ⟨t, _, rfl⟩ := Option.map_eq_some'.1 hg
  exact ha

theorem lookup_measDict_eq_none {α : Type} {l : List String}
    {g : String → Option α} {key : String} (h : key ∉ l) :
    dictLookup key (l.filterMap fun k => (g k).map fun t => (k, t)) = none := by
  induction l with
  | nil => rfl
  | cons a tl ih =>
    have hne : a ≠ key := fun e => h (e ▸ List.mem_cons_self a tl)
    have htl : key ∉ tl := fun e => h (List.mem_cons_of_mem a e)
    cases hg : g a with
    | none => simpa [List.filterMap_cons, hg] using ih htl
    | some t => simpa [List.filterMap_cons, hg, dictLookup, hne] using ih htl

theorem lookup_measDict_eq_some {α : Type} {l : List String}
    {g : String → Option α} {key : String} {t : α}
    (hmem : key ∈ l) (hg : g key = some t) :
    dictLookup key (l.filterMap fun k => (g k).map fun u => (k, u)) = some t := by
  induction l with
  | nil => cases hmem
  | cons a tl ih =>
    rcases List.mem_cons.1 hmem with rfl | hmem'
    · simp [List.filterMap_cons, hg, dictLookup]
    · by_cases hak : a = key
      · subst hak; simp [List.filterMap_cons, hg, dictLookup]
      · cases hga : g a with
        | none => simpa [List.filterMap_cons, hga] using ih hmem'
        | some u =>
          simpa [List.filterMap_cons, hga, dictLookup, hak] using ih hmem'

/-- C7: in `_get_measurment_data`, a key of configured weight zero is
skipped entirely — absent from the returned key list and from the
measurement dictionary — and the `Q` key of nonzero weight yields a
table with rows Q1/Q2, VALUE the fractional parts of the two tune
headers of the horizontal phase file, and ERROR fixed at 0.001. -/
theorem measurement_data_weight_zero_and_q (keys : List String)
    (measDir : String → TfsFile) (betaFileName : String) (w : String → ℚ)
    (key : String) :
    (w key = 0 →
      key ∉ (get_measurment_data keys measDir betaFileName w).1 ∧
      dictLookup key (get_measurment_data keys measDir betaFileName w).2 = none) ∧
    (w "Q" ≠ 0 → "Q" ∈ keys →
      dictLookup "Q" (get_measurment_data keys measDir betaFileName w).2 =
        some [⟨"Q1", np_remainder1 (measDir (PHASE_NAME ++ "x" ++ EXT)).q1, 1/1000⟩,
              ⟨"Q2", np_remainder1 (measDir (PHASE_NAME ++ "x" ++ EXT)).q2, 1/1000⟩]) := by
  constructor
  · intro hw
    have hnot : key ∉ keys.filter fun k => w k ≠ 0 := by
      intro hmem
      exact absurd hw (by simpa using (List.mem_filter.1 hmem).2)
    exact ⟨hnot, lookup_measDict_eq_none hnot⟩
  · intro hw hq
    have hmem : "Q" ∈ keys.filter fun k => w k ≠ 0 :=
      List.mem_filter.2 ⟨hq, by simpa using hw⟩
    refine lookup_measDict_eq_some hmem ?_
    unfold measKeyDispatch
    rw [if_neg (by decide), if_neg (by decide), if_neg (by decide),
        if_neg (by decide), if_pos rfl]

/-- Witness for C7: a run with keys MUX (weight 0) and Q (weight 1) over
a directory whose horizontal phase file carries tunes 3/2 and 7/3. -/
theorem measurement_data_weight_zero_and_q_witness :
    ("MUX" ∉ (get_measurment_data ["MUX", "Q"]
        (fun _ => ⟨[], 3/2, 7/3⟩) "beta_phase_"
        (fun k => if k = "Q" then 1 else 0)).1 ∧
      dictLookup "MUX" (get_measurment_data ["MUX", "Q"]
        (fun _ => ⟨[], 3/2, 7/3⟩) "beta_phase_"
        (fun k => if k = "Q" then 1 else 0)).2 = none) ∧
    dictLookup "Q" (get_measurment_data ["MUX", "Q"]
        (fun _ => ⟨[], 3/2, 7/3⟩) "beta_phase_"
        (fun k => if k = "Q" then 1 else 0)).2 =
      some [⟨"Q1", np_remainder1 ((fun (_ : String) =>
              (⟨[], 3/2, 7/3⟩ : TfsFile)) (PHASE_NAME ++ "x" ++ EXT)).q1, 1/1000⟩,
            ⟨"Q2", np_remainder1 ((fun (_ : String) =>
              (⟨[], 3/2, 7/3⟩ : TfsFile)) (PHASE_NAME ++ "x" ++ EXT)).q2, 1/1000⟩] :=
  ⟨(measurement_data_weight_zero_and_q ["MUX", "Q"] (fun _ => ⟨[], 3/2, 7/3⟩)
      "beta_phase_" (fun k => if k = "Q" then 1 else 0) "MUX").1 (by decide),
   (measurement_data_weight_zero_and_q ["MUX", "Q"] (fun _ => ⟨[], 3/2, 7/3⟩)
      "beta_phase_" (fun k => if k = "Q" then 1 else 0) "MUX").2
      (by decide) (by decide)⟩

/-- C8: the knob file written after the iteration loop holds the negated
accumulated Delta Vector in its DELTA column, the configured output
directory in its PATH header, and the creation-time rendering in its
DATE header. -/
theorem write_knob_contents (outputDir : List String) (fileName : String)
    (now : ℕ) (ctime : ℕ → String) (delta : DeltaVec) :
    (write_knob (spec_knob_path outputDir fileName) now ctime delta).deltaCol
        = delta.map (fun p => (p.1, -p.2)) ∧
    (write_knob (spec_knob_path outputDir fileName) now ctime delta).pathHeader
        = outputDir ∧
    (write_knob (spec_knob_path outputDir fileName) now ctime delta).dateHeader
        = ctime now := by
  refine ⟨rfl, ?_, rfl⟩
  simp [write_knob, spec_knob_path, dirname]

/-! Helper lemma about the surviving-point count. -/

theorem count_not_mask (mask : List Bool) :
    (mask.map not).count true = mask.count false := by
  induction mask with
  | nil => rfl
  | cons b tl ih => cases b <;> simp [ih]

/-- C6: after building the exclusion mask from min_val, max_val and
missing values, `get_moving_average` raises the ValueError (InvalidInput)
guard exactly when at most `length` points survive, regardless of the
series content; with at least `length + 1` survivors no such error is
raised at this guard. -/
theorem moving_average_guard_iff (series : List (Option ℚ)) (length : ℕ)
    (minVal maxVal : Option ℚ) (fineLength : Option ℕ) (fineCut : Option ℚ)
    (hfine : truthyNat fineLength = truthyRat fineCut) :
    get_moving_average_checks series length minVal maxVal fineLength fineCut
        = .error .invalidInput ↔
      (build_cut_mask series minVal maxVal).count false ≤ length := by
  unfold get_moving_average_checks
  rw [hfine]
  simp only [bne_self_eq_false, Bool.false_eq_true, if_false]
  unfold is_almost_empty_mask
  rw [count_not_mask]
  by_cases h : (build_cut_mask series minVal maxVal).count false ≤ length
  · simp [h]
  · simp [h]

/-- Witness for C6: a three-point series with one missing value and
window length 2 has only 2 survivors and trips the guard. -/
theorem moving_average_guard_iff_witness :
    get_moving_average_checks [some 1, none, some 2] 2 none none none none
        = .error .invalidInput :=
  (moving_average_guard_iff [some 1, none, some 2] 2 none none none none
    rfl).mpr (by decide)

/-- C10: `calc_k` writes the single average-K header twice — X-plane
average first, Y-plane average second — so the stored value is always
the Y-plane-cleaned average; whenever the two selections give different
averages the stored value is not the X average, and downstream
`return_fit_input` builds its ΔK row from the Y-plane average only. -/
theorem calc_k_uses_y_plane_average (df : MagnetTable) :
    (calc_k df).headers.kAvg = np_average (cleaned_k_values df "Y") ∧
    (np_average (cleaned_k_values df "X") ≠ np_average (cleaned_k_values df "Y") →
      (calc_k df).headers.kAvg ≠ np_average (cleaned_k_values df "X")) ∧
    (∀ plane, (return_fit_input (calc_k df) plane).1 =
      (cleaned_k_values df plane).map fun k =>
        (if plane = "X" then df.headers.polarity else -df.headers.polarity) *
          (k - np_average (cleaned_k_values df "Y")) * df.headers.magLength) := by
  have h1 : (calc_k df).headers.kAvg = np_average (cleaned_k_values df "Y") := rfl
  exact ⟨h1, fun hne hax => hne (hax.symm.trans h1), fun plane => rfl⟩

/-- Witness for C10: a table whose X-cleaned rows average K = 1 but whose
Y-cleaned rows average K = 3 ends up with a header that is not the
X-plane average. -/
theorem calc_k_uses_y_plane_average_witness :
    (calc_k ⟨[⟨1, 0, 0, true, false⟩, ⟨3, 0, 0, false, true⟩],
        ⟨0, 0, 0, 1, 1⟩⟩).headers.kAvg ≠
      np_average (cleaned_k_values
        ⟨[⟨1, 0, 0, true, false⟩, ⟨3, 0, 0, false, true⟩], ⟨0, 0, 0, 1, 1⟩⟩ "X") :=
  (calc_k_uses_y_plane_average
    ⟨[⟨1, 0, 0, true, false⟩, ⟨3, 0, 0, false, true⟩], ⟨0, 0, 0, 1, 1⟩⟩).2.1
    (by
      have hx : cleaned_k_values
          ⟨[⟨1, 0, 0, true, false⟩, ⟨3, 0, 0, false, true⟩], ⟨0, 0, 0, 1, 1⟩⟩ "X"
          = [1] := by simp [cleaned_k_values]
      have hy : cleaned_k_values
          ⟨[⟨1, 0, 0, true, false⟩, ⟨3, 0, 0, false, true⟩], ⟨0, 0, 0, 1, 1⟩⟩ "Y"
          = [3] := by simp [cleaned_k_values]
      rw [hx, hy]
      norm_num [np_average])

/-- C5 counterexample: for two magnets that both carry POLARITY +1 in
plane X — an unrecognized combination — the magnet-role assignment step
of `get_beta_waist` fails by unpacking `None` (a TypeError), not by an
immediately raised configuration (InvalidInput) error. -/
theorem return_df_unrecognized_counterexample :
    get_beta_waist_roles ⟨1⟩ ⟨1⟩ "X" = .error .typeError ∧
    (Except.error PyError.typeError :
        Except PyError (MagnetDF × MagnetDF)) ≠ .error .invalidInput := by
  exact ⟨rfl, by simp⟩

/-- C5 amended: for plane X or Y, the role assignment yields the
TypeError-style failure exactly when the polarity pair is not one +1 and
one −1, and it never yields an InvalidInput error. -/
theorem return_df_unrecognized_behavior (m1 m2 : MagnetDF) (plane : String)
    (hp : plane = "X" ∨ plane = "Y") :
    (get_beta_waist_roles m1 m2 plane = .error .typeError ↔
      ¬((m1.polarity = 1 ∧ m2.polarity = -1) ∨
        (m1.polarity = -1 ∧ m2.polarity = 1))) ∧
    get_beta_waist_roles m1 m2 plane ≠ .error .invalidInput := by
  rcases hp with rfl | rfl <;>
  · unfold get_beta_waist_roles return_df
    by_cases h1 : m1.polarity = 1 ∧ m2.polarity = -1 <;>
      by_cases h2 : m1.polarity = -1 ∧ m2.polarity = 1 <;>
        simp [h1, h2]

/-- Witness for C5 amended: polarity pair (+2, −1) in plane Y is
unrecognized and produces the TypeError failure, not InvalidInput. -/
theorem return_df_unrecognized_behavior_witness :
    (get_beta_waist_roles ⟨2⟩ ⟨-1⟩ "Y" = .error .typeError ↔
      ¬(((MagnetDF.mk 2).polarity = 1 ∧ (MagnetDF.mk (-1)).polarity = -1) ∨
        ((MagnetDF.mk 2).polarity = -1 ∧ (MagnetDF.mk (-1)).polarity = 1))) ∧
    get_beta_waist_roles ⟨2⟩ ⟨-1⟩ "Y" ≠ .error .invalidInput :=
  return_df_unrecognized_behavior ⟨2⟩ ⟨-1⟩ "Y" (Or.inr rfl)

/-- C3 (code bug): evaluating `get_beta_waist` with fit results that are
zero on the nominal and all plus-perturbation rows but 5 on a
minus-perturbation row, the reported beta-waist error is 0, strictly
smaller than the 5-unit deviation of that perturbed result from the
nominal — the max-of-two-one-sided-deviations envelope claimed by the
spec does not hold because lines 216-217 compare `np.absolute` of the
plus-row deviations with `abs` of the same plus-row deviations and never
read the minus rows. -/
theorem get_beta_waist_err_ignores_minus_rows :
    (get_beta_waist fun s => if s 0 < 0 then ((5 : ℚ), (5 : ℚ)) else (0, 0)).2.1
        = 0 ∧
    ((fun s : Fin 8 → ℚ => if s 0 < 0 then ((5 : ℚ), (5 : ℚ)) else (0, 0))
        (return_sign_for_err 8 (minusRow 0))).1 -
      ((fun s : Fin 8 → ℚ => if s 0 < 0 then ((5 : ℚ), (5 : ℚ)) else (0, 0))
        (return_sign_for_err 8 0)).1 = 5 := by
  constructor
  · unfold get_beta_waist
    have hzero : ∀ k : Fin 8,
        (if return_sign_for_err 8 (plusRow k) 0 < 0 then ((5 : ℚ), (5 : ℚ))
         else (0, 0)).1 -
          (if return_sign_for_err 8 (0 : Fin (2 * 8 + 1)) 0 < 0
           then ((5 : ℚ), (5 : ℚ)) else (0, 0)).1 = 0 := by
      intro k
      have h1 : ¬return_sign_for_err 8 (plusRow k) 0 < 0 := by
        unfold return_sign_for_err plusRow
        simp only
        split
        · norm_num
        · split
          · omega
          · norm_num
      have h2 : ¬return_sign_for_err 8 (0 : Fin (2 * 8 + 1)) 0 < 0 := by
        unfold return_sign_for_err
        norm_num
      rw [if_neg h1, if_neg h2]
      norm_num
    simp only
    rw [show (∑ k : Fin 8,
        (max |(if return_sign_for_err 8 (plusRow k) 0 < 0 then ((5 : ℚ), (5 : ℚ))
               else (0, 0)).1 -
              (if return_sign_for_err 8 (0 : Fin (2 * 8 + 1)) 0 < 0
               then ((5 : ℚ), (5 : ℚ)) else (0, 0)).1|
             |(if return_sign_for_err 8 (plusRow k) 0 < 0 then ((5 : ℚ), (5 : ℚ))
               else (0, 0)).1 -
              (if return_sign_for_err 8 (0 : Fin (2 * 8 + 1)) 0 < 0
               then ((5 : ℚ), (5 : ℚ)) else (0, 0)).1|) ^ 2 : ℚ) = 0 by
      refine Finset.sum_eq_zero fun k _ => ?_
      rw [hzero k]
      norm_num]
    norm_num [Real.sqrt_zero]
  · have hminus : return_sign_for_err 8 (minusRow 0) 0 < 0 := by
      unfold return_sign_for_err minusRow
      norm_num
    have hzero : ¬return_sign_for_err 8 (0 : Fin (2 * 8 + 1)) 0 < 0 := by
      unfold return_sign_for_err
      norm_num
    simp only
    rw [if_pos hminus, if_neg hzero]
    norm_num

/-- C9 counterexample: `three_bpm_method` does mutate the MEAS phase
matrix it receives — on a 4×4 all-zero matrix with measured tune 1/2, the
bottom-left corner entry (3, 0) holds 1/2 after the call, not its
original 0. -/
theorem tilt_slice_mutates_counterexample :
    three_bpm_meas_after (fun (_ _ : Fin 4) => (0 : ℚ)) (1/2)
        ⟨3, by norm_num⟩ ⟨0, by norm_num⟩ = 1/2 ∧
    (fun (_ _ : Fin 4) => (0 : ℚ)) ⟨3, by norm_num⟩ ⟨0, by norm_num⟩ = 0 ∧
    ((1 : ℚ)/2) ≠ 0 := by
  refine ⟨?_, rfl, by norm_num⟩
  norm_num [three_bpm_meas_after, tilt_slice_matrix, tilt_mutation]

/-- C9 amended: `three_bpm_method` leaves an entry of the MEAS phase
matrix unchanged exactly when the tune is zero or the entry's membership
in the bottom-left and top-right 2×2 corner regions coincides (so the
`+= tune` and `-= tune` updates cancel or both miss); in particular
every bottom-left-corner entry gains the tune and every
top-right-corner entry loses it. -/
theorem three_bpm_mutation_characterization {n : ℕ} (meas : Fin n → Fin n → ℚ)
    (tune : ℚ) (i j : Fin n) :
    three_bpm_meas_after meas tune i j = meas i j ↔
      tune = 0 ∨ ((n - 2 ≤ i.val ∧ j.val < 2) ↔ (i.val < 2 ∧ n - 2 ≤ j.val)) := by
  unfold three_bpm_meas_after tilt_slice_matrix tilt_mutation
  simp only
  split_ifs with hbl htr htr
  · simp [hbl, htr, add_sub_cancel_right]
  · simp [hbl, htr, add_right_eq_self]
    exact fun h1 h2 => (htr ⟨h1, by omega⟩).elim
  · simp [hbl, htr, sub_eq_self]
    exact fun h1 h2 => (hbl ⟨by omega, h2⟩).elim
  · simp [hbl, htr]
    exact Or.inr ⟨fun h => (hbl ⟨by omega, h.2⟩).elim,
                  fun h => (htr ⟨h.1, by omega⟩).elim⟩

/-! Helper lemma about `_covariant_weighting`. -/

theorem covariant_weighting_error_iff {nc : ℕ}
    (pinvMat mat : Fin nc → Fin nc → ℚ) (col : Fin nc → ℚ) :
    covariant_weighting pinvMat mat col = .error () ↔ total_sum pinvMat = 0 := by
  unfold covariant_weighting total_sum
  by_cases h : (∑ i, ∑ j, pinvMat i j) = 0 <;> simp [h]

/-- C2 counterexample: the nonzero singular covariance matrix
A = [[1, −1], [−1, 1]] has the Moore-Penrose pseudo-inverse A/4 (so
`np.linalg.pinv` returns exactly this matrix), whose inverse-variance
weights sum to zero; the per-BPM block of `n_bpm_method` then hits the
uncaught `ValueError` of `_covariant_weighting` — a fatal outcome, not
the claimed local skip. -/
theorem n_bpm_singular_covariance_fatal :
    is_moore_penrose (fun i j : Fin 2 => if i = j then (1 : ℚ) else -1)
        (fun i j : Fin 2 => if i = j then (1/4 : ℚ) else -(1/4)) ∧
    n_bpm_probed_step
        (fun i j : Fin 2 => if i = j then (1/4 : ℚ) else -(1/4))
        (fun i j : Fin 2 => if i = j then (1/4 : ℚ) else -(1/4))
        (fun i j : Fin 2 => if i = j then (1 : ℚ) else -1)
        (fun i j : Fin 2 => if i = j then (1 : ℚ) else -1)
        (fun _ => 1) (fun _ => 1) = NBpmOutcome.fatal ∧
    NBpmOutcome.fatal ≠ NBpmOutcome.skipped := by
  refine ⟨⟨?_, ?_, ?_, ?_⟩, ?_, by simp⟩
  · funext i j
    fin_cases i <;> fin_cases j <;> norm_num [mat_mul, Fin.sum_univ_two]
  · funext i j
    fin_cases i <;> fin_cases j <;> norm_num [mat_mul, Fin.sum_univ_two]
  · funext i j
    fin_cases i <;> fin_cases j <;> norm_num [mat_mul, Fin.sum_univ_two]
  · funext i j
    fin_cases i <;> fin_cases j <;> norm_num [mat_mul, Fin.sum_univ_two]
  · have hany : any_nonzero (fun i j : Fin 2 => if i = j then (1 : ℚ) else -1) :=
      ⟨0, 0, by norm_num⟩
    have hsum :
        total_sum (fun i j : Fin 2 => if i = j then (1/4 : ℚ) else -(1/4)) = 0 := by
      norm_num [total_sum, Fin.sum_univ_two]
    have hcw := (covariant_weighting_error_iff
      (fun i j : Fin 2 => if i = j then (1/4 : ℚ) else -(1/4))
      (fun i j : Fin 2 => if i = j then (1 : ℚ) else -1) (fun _ => 1)).2 hsum
    unfold n_bpm_probed_step
    rw [if_pos ⟨hany, hany⟩, hcw]

/-- C2 amended: a probed BPM whose beta- or alpha-covariance matrix has
no nonzero entry (in particular when no valid pair combination exists)
is skipped — zero combination marker, excluded from the final table —
but when both matrices have a nonzero entry and the pseudo-inverse
weights of either sum to zero, the `ValueError` of
`_covariant_weighting` propagates uncaught and the outcome is fatal. -/
theorem n_bpm_degenerate_outcomes {nc : ℕ}
    (pinvBeta pinvAlpha matVBeta matVAlpha : Fin nc → Fin nc → ℚ)
    (betas alphas : Fin nc → ℚ) :
    (n_bpm_probed_step pinvBeta pinvAlpha matVBeta matVAlpha betas alphas
        = NBpmOutcome.skipped ↔
      ¬(any_nonzero matVBeta ∧ any_nonzero matVAlpha)) ∧
    (n_bpm_probed_step pinvBeta pinvAlpha matVBeta matVAlpha betas alphas
        = NBpmOutcome.fatal ↔
      (any_nonzero matVBeta ∧ any_nonzero matVAlpha) ∧
        (total_sum pinvBeta = 0 ∨ total_sum pinvAlpha = 0)) ∧
    (∀ (bpm : String) (outcomes : List (String × NBpmOutcome)),
      (∀ o, (bpm, o) ∈ outcomes → o = NBpmOutcome.skipped) →
      bpm ∉ n_bpm_result_rows outcomes) := by
  refine ⟨?_, ?_, ?_⟩
  · by_cases hany : any_nonzero matVBeta ∧ any_nonzero matVAlpha
    · simp only [n_bpm_probed_step, if_pos hany]
      rcases hB : covariant_weighting pinvBeta matVBeta betas with e | ⟨vb, ve⟩
      · simp [hany]
      · rcases hA : covariant_weighting pinvAlpha matVAlpha alphas with e | ⟨wb, we⟩
        · simp [hany]
        · simp [hany]
    · simp [n_bpm_probed_step, if_neg hany, hany]
  · by_cases hany : any_nonzero matVBeta ∧ any_nonzero matVAlpha
    · simp only [n_bpm_probed_step, if_pos hany]
      rcases hB : covariant_weighting pinvBeta matVBeta betas with e | ⟨vb, ve⟩
      · have hb0 : total_sum pinvBeta = 0 :=
          (covariant_weighting_error_iff pinvBeta matVBeta betas).1
            (by cases e; exact hB)
        simp [hany, hb0]
      · have hb0 : ¬total_sum pinvBeta = 0 := by
          intro h
          have hh := (covariant_weighting_error_iff pinvBeta matVBeta betas).2 h
          rw [hB] at hh
          cases hh
        rcases hA : covariant_weighting pinvAlpha matVAlpha alphas with e | ⟨wb, we⟩
        · have ha0 : total_sum pinvAlpha = 0 :=
            (covariant_weighting_error_iff pinvAlpha matVAlpha alphas).1
              (by cases e; exact hA)
          simp [hany, ha0]
        · have ha0 : ¬total_sum pinvAlpha = 0 := by
            intro h
            have hh := (covariant_weighting_error_iff pinvAlpha matVAlpha alphas).2 h
            rw [hA] at hh
            cases hh
          simp [hany, hb0, ha0]
    · simp [n_bpm_probed_step, if_neg hany, hany]
  · intro bpm outcomes hall hmem
    unfold n_bpm_result_rows at hmem
    obtain ⟨⟨b, o⟩, hmem', hb⟩ := List.mem_map.1 hmem
    cases hb
    have h := List.mem_filter.1 hmem'
    have hno := of_decide_eq_true h.2
    rw [hall o h.1] at hno
    simp [ncombOf] at hno

/-- Witness for C2 amended: a 1×1 all-zero covariance pair is skipped,
and a BPM whose only outcome is the skip is absent from the final
table. -/
theorem n_bpm_degenerate_outcomes_witness :
    n_bpm_probed_step (fun (_ _ : Fin 1) => (0 : ℚ)) (fun _ _ => 0) (fun _ _ => 0)
        (fun _ _ => 0) (fun _ => 0) (fun _ => 0) = NBpmOutcome.skipped ∧
    "BPM1" ∉ n_bpm_result_rows [("BPM1", NBpmOutcome.skipped)] :=
  ⟨(n_bpm_degenerate_outcomes (fun (_ _ : Fin 1) => (0 : ℚ)) (fun _ _ => 0)
      (fun _ _ => 0) (fun _ _ => 0) (fun _ => 0) (fun _ => 0)).1.mpr
      (by rintro ⟨⟨i, j, hij⟩, -⟩; exact hij rfl),
   (n_bpm_degenerate_outcomes (fun (_ _ : Fin 1) => (0 : ℚ)) (fun _ _ => 0)
      (fun _ _ => 0) (fun _ _ => 0) (fun _ => 0) (fun _ => 0)).2.2 "BPM1"
      [("BPM1", NBpmOutcome.skipped)]
      (fun o ho => congrArg Prod.snd (List.mem_singleton.1 ho))⟩

/-! Helper lemmas about the systematic-error assignment loop. -/

theorem apply_errdef_name (ed : ErrDef) (e : UncElem) :
    (apply_errdef ed e).name = e.name := by
  unfold apply_errdef
  split <;> rfl

theorem foldl_errdefs_name (defs : List ErrDef) (x : UncElem) :
    (defs.foldl (fun a ed => apply_errdef ed a) x).name = x.name := by
  induction defs generalizing x with
  | nil => rfl
  | cons d rest ih => rw [List.foldl_cons, ih, apply_errdef_name]

theorem foldl_errdefs_dX (defs : List ErrDef) (x : UncElem) :
    (defs.foldl (fun a ed => apply_errdef ed a) x).dX =
      match (defs.filter fun ed => pattern_matches ed.pattern x.name).getLast? with
      | some d => d.dX * 2
      | none => x.dX := by
  induction defs generalizing x with
  | nil => rfl
  | cons d rest ih =>
    rw [List.foldl_cons, ih (apply_errdef d x), apply_errdef_name]
    by_cases hm : pattern_matches d.pattern x.name = true
    · simp only [List.filter_cons, hm, if_true]
      cases hrest : (rest.filter fun ed => pattern_matches ed.pattern x.name) with
      | nil =>
        simp only [hrest, List.getLast?_singleton]
        simp [apply_errdef, hm]
      | cons c t =>
        simp only [hrest, List.getLast?_cons_cons]
        cases hy : (c :: t).getLast? with
        | none => simp at hy
        | some y => rfl
    · have happ : apply_errdef d x = x := by
        unfold apply_errdef
        rw [if_neg hm]
      rw [happ]
      simp [List.filter_cons, hm]

theorem foldl_map_apply (defs : List ErrDef) (l : List UncElem) :
    defs.foldl (fun acc ed => acc.map (apply_errdef ed)) l =
      l.map fun x => defs.foldl (fun a ed => apply_errdef ed a) x := by
  induction defs generalizing l with
  | nil => simp
  | cons d rest ih =>
    rw [List.foldl_cons, ih, List.map_map]
    rfl

/-- C4 counterexample: one element matched by two overlapping patterns
with transverse-misalignment values 1 and 2 ends with dX = 4 = 2·2 (the
last match), not the additive 2·1 + 2·2 = 6 the claim requires —
`_assign_uncertainties` assigns `dX` with `=`, not `+=`. -/
theorem assign_uncertainties_dx_overwrite_counterexample :
    (assign_uncertainties [⟨"E", 0, false, 0, 0, 0, 0, 0⟩]
        [⟨.regex fun _ => true, "QUAD", 0, 1, 0⟩,
         ⟨.regex fun _ => true, "QUAD", 0, 2, 0⟩]).map (fun e => e.dX) = [4] ∧
    (4 : ℚ) ≠ 2 * 1 + 2 * 2 := by
  constructor
  · norm_num [assign_uncertainties, apply_errdef, pattern_matches, np_roll_one]
  · norm_num

/-- C4 amended: for every element of the returned uncertainty table that
is matched by at least one error-definition pattern, the dX column holds
2 times the transverse-misalignment value of the LAST matching pattern
in definition order — overlapping matches overwrite, they do not
accumulate. -/
theorem assign_uncertainties_dx_last_match (elems : List UncElem)
    (errdefs : List ErrDef) (e : UncElem)
    (he : e ∈ assign_uncertainties elems errdefs) (d : ErrDef)
    (hl : (errdefs.filter fun ed => pattern_matches ed.pattern e.name).getLast?
        = some d) :
    e.dX = d.dX * 2 := by
  simp only [assign_uncertainties] at he
  have he1 := (List.mem_filter.1 he).1
  obtain ⟨q, hq, hqe⟩ := List.mem_map.1 he1
  have hf : q.1 ∈ List.foldl (fun acc ed => acc.map (apply_errdef ed))
      (elems.map fun e => { e with
        unc := false, dK1 := 0, kdS := 0, mkdS := 0, dX := 0, bpmdS := 0 })
      errdefs := by
    have := List.of_mem_zip (by simpa using hq)
    exact this.1
  rw [foldl_map_apply] at hf
  obtain ⟨x, _, hx⟩ := List.mem_map.1 hf
  have hdx : e.dX = q.1.dX := by rw [← hqe]
  have hname : e.name = q.1.name := by rw [← hqe]
  have hdx2 : q.1.dX = (errdefs.foldl (fun a ed => apply_errdef ed a) x).dX := by
    rw [← hx]
  have hname2 : q.1.name = x.name := by
    rw [← hx]
    exact foldl_errdefs_name errdefs x
  rw [hdx, hdx2, foldl_errdefs_dX]
  rw [hname, hname2] at hl
  rw [hl]

/-- Witness for C4 amended: the element produced by the counterexample
run carries dX = 2 times the last matching pattern's value. -/
theorem assign_uncertainties_dx_last_match_witness :
    (UncElem.mk "E" 0 true 0 0 0 4 0).dX =
      (ErrDef.mk (.regex fun _ => true) "QUAD" 0 2 0).dX * 2 :=
  assign_uncertainties_dx_last_match [⟨"E", 0, false, 0, 0, 0, 0, 0⟩]
    [⟨.regex fun _ => true, "QUAD", 0, 1, 0⟩,
     ⟨.regex fun _ => true, "QUAD", 0, 2, 0⟩]
    ⟨"E", 0, true, 0, 0, 0, 4, 0⟩
    (by norm_num [assign_uncertainties, apply_errdef, pattern_matches, np_roll_one])
    (ErrDef.mk (.regex fun _ => true) "QUAD" 0 2 0) rfl

end Omc3
